import Mathlib

/-!
Verification of the Mueller–Muller symbol-timing recovery loop from
`8_wip_Synchronization.ipynb` (cell 9).  The loop is embedded shallowly:

* complex floating-point samples become pairs of exact rationals (`Cx`);
* Python integers become `ℤ`, array lengths `ℕ`;
* `samples[j]` follows Python semantics: negative indices wrap once,
  indices outside `[-len, len)` raise `IndexError`, modelled as `none`;
* `int(x)` truncates toward zero (`pyTrunc`), `np.floor` is `⌊·⌋`;
* the `while` loop is run with explicit fuel; fuel equal to the input
  length is proved sufficient because the output index `i_out` strictly
  increases and the guard requires `i_out < len(samples)`.

The loop state mirrors the variables of the source: `mu`, `i_in`, `i_out`,
the two-entry sliding histories `out[i_out-1]`, `out[i_out-2]`,
`out_rail[i_out-1]`, `out_rail[i_out-2]` (the preallocated arrays are only
ever read at those two offsets), and the accumulated output `out[2:i_out]`.
-/

set_option autoImplicit false

attribute [local semireducible] Rat.add Rat.sub Rat.mul Rat.inv

namespace PySDR

/-- A complex baseband sample: real and imaginary part as exact rationals. -/
structure Cx where
  re : ℚ
  im : ℚ
deriving DecidableEq

/-- Complex subtraction, componentwise. -/
def Cx.sub (a b : Cx) : Cx := ⟨a.re - b.re, a.im - b.im⟩

/-- Complex multiplication. -/
def Cx.mul (a b : Cx) : Cx := ⟨a.re * b.re - a.im * b.im, a.re * b.im + a.im * b.re⟩

/-- Complex conjugate (`np.conj`). -/
def Cx.conj (a : Cx) : Cx := ⟨a.re, -a.im⟩

/-- The zero sample. -/
def Cx.zero : Cx := ⟨0, 0⟩

/-- Python `int(x)` on a real value: truncation toward zero. -/
def pyTrunc (q : ℚ) : ℤ := if 0 ≤ q then ⌊q⌋ else ⌈q⌉

/-- Python / numpy indexing `xs[j]`: a negative index wraps around once,
an index outside `[-len xs, len xs)` raises `IndexError` (modelled as `none`). -/
def pyGet (xs : List Cx) (j : ℤ) : Option Cx :=
  if -(xs.length : ℤ) ≤ j ∧ j < (xs.length : ℤ) then
    xs[(j % (xs.length : ℤ)).toNat]?
  else none

/-- The hard-decision slicer of the source:
`int(np.real(z) > 0) + 1j*int(np.imag(z) > 0)`.  Each component is mapped to
`1` when strictly positive and to `0` otherwise. -/
def rail (z : Cx) : Cx := ⟨if 0 < z.re then 1 else 0, if 0 < z.im then 1 else 0⟩

/-- The mutable working state of the recovery loop, one record per source
variable plus the two-entry sliding histories and the accumulated output. -/
structure MMState where
  mu : ℚ
  i_in : ℤ
  i_out : ℕ
  outPrev1 : Cx
  outPrev2 : Cx
  railPrev1 : Cx
  railPrev2 : Cx
  outAcc : List Cx
deriving DecidableEq

/-- Initial state of the loop: `mu = 0`, `i_in = 0`, `i_out = 2`, zero-valued
history slots (the two leading placeholder outputs), empty output. -/
def mmInit : MMState := ⟨0, 0, 2, Cx.zero, Cx.zero, Cx.zero, Cx.zero, []⟩

/-- The `while` guard of the source:
`i_out < len(samples) and i_in + 16 < len(samples)`. -/
abbrev mmGuard (L : ℕ) (st : MMState) : Prop :=
  st.i_out < L ∧ st.i_in + 16 < (L : ℤ)

/-- The Mueller–Muller timing-error value `mm_val` computed by one iteration
from the current state, or `none` when the sample read raises `IndexError`. -/
def mmErr (samples : List Cx) (st : MMState) : Option ℚ :=
  (pyGet samples (st.i_in + pyTrunc st.mu)).map fun z =>
    let r := rail z
    let x := (r.sub st.railPrev2).mul st.outPrev1.conj
    let y := (z.sub st.outPrev2).mul st.railPrev1.conj
    (y.sub x).re

/-- One iteration of the loop body (the guard is checked by the caller):
read `samples[i_in + int(mu)]`, slice it, compute the timing error,
update `mu += sps + gain*mm_val`, split off the integer part into `i_in`,
renormalize `mu`, advance `i_out`, slide the histories and append the
output sample.  `none` models an `IndexError` on the read. -/
def mmStep (sps gain : ℚ) (samples : List Cx) (st : MMState) : Option MMState :=
  (pyGet samples (st.i_in + pyTrunc st.mu)).map fun z =>
    let r := rail z
    let x := (r.sub st.railPrev2).mul st.outPrev1.conj
    let y := (z.sub st.outPrev2).mul st.railPrev1.conj
    let mm := (y.sub x).re
    let mu1 := st.mu + sps + gain * mm
    ⟨mu1 - (⌊mu1⌋ : ℚ), st.i_in + ⌊mu1⌋, st.i_out + 1,
      z, st.outPrev1, r, st.railPrev1, st.outAcc ++ [z]⟩

/-- The state after `n` completed guarded iterations of the loop, or `none`
if the loop stopped (guard failure) or raised before completing `n` of them. -/
def mmIter (sps gain : ℚ) (samples : List Cx) : ℕ → Option MMState
  | 0 => some mmInit
  | n + 1 =>
    (mmIter sps gain samples n).bind fun st =>
      if mmGuard samples.length st then mmStep sps gain samples st else none

/-- Fuel-indexed runner for the `while` loop. -/
def mmRunAux (sps gain : ℚ) (samples : List Cx) : ℕ → MMState → Option MMState
  | 0, st => some st
  | fuel + 1, st =>
    if mmGuard samples.length st then
      match mmStep sps gain samples st with
      | some st' => mmRunAux sps gain samples fuel st'
      | none => none
    else some st

/-- Run the loop to completion from a given state.  Fuel `samples.length`
is sufficient: each iteration increments `i_out` and the guard requires
`i_out < samples.length` (see `mmRunAux_not_guard_of_le`). -/
def mmRun (sps gain : ℚ) (samples : List Cx) (st : MMState) : Option MMState :=
  mmRunAux sps gain samples samples.length st

/-- The externally visible result of cell 9: run the loop from the initial
state and return `out[2:i_out]`, i.e. the accumulated output samples with the
two leading placeholders dropped; `none` models an uncaught `IndexError`. -/
def clockRecovery (sps gain : ℚ) (samples : List Cx) : Option (List Cx) :=
  (mmRun sps gain samples mmInit).map MMState.outAcc

/-- One oversampled symbol: the value followed by `sps - 1 = 7` zeros. -/
def pulse (v : ℚ) : List Cx := ⟨v, 0⟩ :: List.replicate 7 Cx.zero

/-- The concrete input of the spec's concrete scenario: the symbol sequence
`[1, -1, 1, 1, -1]` oversampled at `sps = 8`, no noise, no delay. -/
def c1Samples : List Cx :=
  pulse 1 ++ pulse (-1) ++ pulse 1 ++ pulse 1 ++ pulse (-1)

/-- The output the loop actually produces on `c1Samples`. -/
def c1Out : List Cx := [⟨1, 0⟩, ⟨-1, 0⟩, ⟨0, 0⟩, ⟨0, 0⟩]

/-- A stream of `n` copies of the sample `1 + 0j`. -/
def onesStream (n : ℕ) : List Cx := List.replicate n ⟨1, 0⟩

/-- An adversarial 25-sample stream (`samples[0] = 100`, `samples[8] = -100`,
zeros elsewhere) on which the error term drives `i_in` backwards. -/
def advStream : List Cx :=
  ⟨100, 0⟩ :: (List.replicate 7 Cx.zero ++ ⟨-100, 0⟩ :: List.replicate 16 Cx.zero)

/-- An adversarial 25-sample stream (`samples[0] = 100`, `samples[8] = -200`,
zeros elsewhere) on which the loop's read raises `IndexError`. -/
def crashStream : List Cx :=
  ⟨100, 0⟩ :: (List.replicate 7 Cx.zero ++ ⟨-200, 0⟩ :: List.replicate 16 Cx.zero)

/-- The state of the loop on `crashStream` after two completed iterations. -/
def crashSt2 : MMState :=
  ⟨0, -44, 4, ⟨-200, 0⟩, ⟨100, 0⟩, ⟨0, 0⟩, ⟨1, 0⟩, [⟨100, 0⟩, ⟨-200, 0⟩]⟩

/-- The state of the loop on `onesStream 20` after one completed iteration
(which is also its final state). -/
def onesSt1 : MMState :=
  ⟨0, 8, 3, ⟨1, 0⟩, ⟨0, 0⟩, ⟨1, 0⟩, ⟨0, 0⟩, [⟨1, 0⟩]⟩

/-! ## Helper lemmas about a single step and the iterated loop -/

/-- A successful step produces some timing-error value. -/
theorem mmErr_of_step {sps gain : ℚ} {samples : List Cx} {st st' : MMState}
    (h : mmStep sps gain samples st = some st') :
    ∃ e, mmErr samples st = some e := by
  unfold mmStep at h
  unfold mmErr
  cases hz : pyGet samples (st.i_in + pyTrunc st.mu) with
  | none => rw [hz] at h; exact absurd h (by simp)
  | some z => exact ⟨_, rfl⟩

/-- A successful step advances the output index by exactly one. -/
theorem mmStep_i_out {sps gain : ℚ} {samples : List Cx} {st st' : MMState}
    (h : mmStep sps gain samples st = some st') : st'.i_out = st.i_out + 1 := by
  unfold mmStep at h
  rw [Option.map_eq_some'] at h
  obtain ⟨z, _, hst⟩ := h
  subst hst
  rfl

/-- Explicit form of a successful step in terms of its timing-error value:
the loop update `mu += sps + gain*mm_val` followed by the index/fraction
split, the history slide and the appended output sample. -/
theorem mmStep_run_of_err (sps gain : ℚ) {samples : List Cx} {st : MMState} {e : ℚ}
    (he : mmErr samples st = some e) :
    ∃ z, mmStep sps gain samples st =
      some ⟨st.mu + sps + gain * e - (⌊st.mu + sps + gain * e⌋ : ℚ),
            st.i_in + ⌊st.mu + sps + gain * e⌋, st.i_out + 1,
            z, st.outPrev1, rail z, st.railPrev1, st.outAcc ++ [z]⟩ := by
  unfold mmErr at he
  rw [Option.map_eq_some'] at he
  obtain ⟨z, hz, hez⟩ := he
  refine ⟨z, ?_⟩
  unfold mmStep
  rw [hz]
  subst hez
  rfl

/-- Elimination of one iteration layer: a state reached after `n + 1`
iterations comes from a state after `n` iterations at which the `while`
guard held and the step succeeded. -/
theorem mmIter_succ_elim {sps gain : ℚ} {samples : List Cx} {n : ℕ} {st' : MMState}
    (h : mmIter sps gain samples (n + 1) = some st') :
    ∃ st, mmIter sps gain samples n = some st ∧ mmGuard samples.length st ∧
      mmStep sps gain samples st = some st' := by
  cases hprev : mmIter sps gain samples n with
  | none => rw [mmIter, hprev] at h; exact absurd h (by simp)
  | some st =>
    rw [mmIter, hprev, Option.some_bind] at h
    by_cases hg : mmGuard samples.length st
    · rw [if_pos hg] at h; exact ⟨st, rfl, hg, h⟩
    · rw [if_neg hg] at h; exact absurd h (by simp)

/-- Invariant: at the top of every iteration (equivalently, right after every
index/fraction split) the fractional accumulator lies in `[0, 1)`. -/
theorem mmIter_mu_bounds {sps gain : ℚ} {samples : List Cx} :
    ∀ {n : ℕ} {st : MMState}, mmIter sps gain samples n = some st →
      0 ≤ st.mu ∧ st.mu < 1 := by
  intro n
  induction n with
  | zero =>
    intro st h
    rw [mmIter] at h
    cases h
    exact ⟨le_refl 0, by norm_num [mmInit]⟩
  | succ n ih =>
    intro st' h
    obtain ⟨st, _, _, hstep⟩ := mmIter_succ_elim h
    obtain ⟨e, he⟩ := mmErr_of_step hstep
    obtain ⟨z, hrun⟩ := mmStep_run_of_err sps gain he
    rw [hrun] at hstep
    cases hstep
    have h1 := Int.floor_le (st.mu + sps + gain * e)
    have h2 := Int.lt_floor_add_one (st.mu + sps + gain * e)
    constructor
    · simp only
      linarith
    · simp only
      push_cast at h2 ⊢
      linarith

/-- Invariant: the state after `n` iterations has output index `n + 2`. -/
theorem mmIter_i_out {sps gain : ℚ} {samples : List Cx} :
    ∀ {n : ℕ} {st : MMState}, mmIter sps gain samples n = some st →
      st.i_out = n + 2 := by
  intro n
  induction n with
  | zero => intro st h; rw [mmIter] at h; cases h; rfl
  | succ n ih =>
    intro st' h
    obtain ⟨st, hprev, _, hstep⟩ := mmIter_succ_elim h
    rw [mmStep_i_out hstep, ih hprev]

/-- When `mu` lies in `[0, 1)`, Python truncation `int(mu)` gives `0`. -/
theorem pyTrunc_eq_zero {q : ℚ} (h0 : 0 ≤ q) (h1 : q < 1) : pyTrunc q = 0 := by
  unfold pyTrunc
  rw [if_pos h0]
  exact Int.floor_eq_zero_iff.mpr (Set.mem_Ico.mpr ⟨h0, h1⟩)

/-- If the guard fails, the runner stops immediately in the current state. -/
theorem mmRunAux_stop {sps gain : ℚ} {samples : List Cx} {st : MMState}
    (hng : ¬ mmGuard samples.length st) :
    ∀ fuel, mmRunAux sps gain samples fuel st = some st := by
  intro fuel
  cases fuel with
  | zero => rfl
  | succ fuel => rw [mmRunAux, if_neg hng]

/-- Fuel sufficiency: with fuel at least `samples.length - i_out`, a state
returned by the runner no longer satisfies the `while` guard. -/
theorem mmRunAux_final_not_guard {sps gain : ℚ} {samples : List Cx} :
    ∀ (fuel : ℕ) (st st' : MMState), samples.length ≤ fuel + st.i_out →
      mmRunAux sps gain samples fuel st = some st' →
      ¬ mmGuard samples.length st' := by
  intro fuel
  induction fuel with
  | zero =>
    intro st st' hle h
    rw [mmRunAux] at h
    cases h
    intro hg
    exact absurd hg.1 (by omega)
  | succ fuel ih =>
    intro st st' hle h
    rw [mmRunAux] at h
    by_cases hg : mmGuard samples.length st
    · rw [if_pos hg] at h
      cases hstep : mmStep sps gain samples st with
      | none => rw [hstep] at h; exact absurd h (by simp)
      | some st1 =>
        rw [hstep] at h
        have hio := mmStep_i_out hstep
        exact ih st1 st' (by omega) h
    · rw [if_neg hg] at h
      cases h
      exact hg

/-! ## Claims -/

/-- Claim C1, counterexample: on the raw oversampled pulse train built from
`[1, -1, 1, 1, -1]` at `sps = 8` with `gain = 0.3`, zero noise and zero
injected delay, the loop's visible output mapped through its own slicer is
NOT the transmitted symbol sequence (it has only four entries and only the
first two symbols are recovered; the spec's expected rails under the loop's
0/1 encoding would be `[1, 0, 1, 1, 0]` on each real axis). -/
theorem concrete_scenario_cex :
    clockRecovery 8 (3/10) c1Samples = some c1Out ∧
    c1Out.map rail ≠ [⟨1, 0⟩, ⟨0, 0⟩, ⟨1, 0⟩, ⟨1, 0⟩, ⟨0, 0⟩] := by decide

/-- Claim C1, amended: on that concrete input the loop halts after four
iterations with Output Sequence `[1, -1, 0, 0]`, whose slicer decisions are
`[1, 0, 0, 0]` on the real axis (i.e. `+1, -1, -1, -1`), so only the first
two transmitted symbols are recovered. -/
theorem concrete_scenario_actual_output :
    clockRecovery 8 (3/10) c1Samples = some c1Out ∧
    c1Out.map rail = [⟨1, 0⟩, ⟨0, 0⟩, ⟨0, 0⟩, ⟨0, 0⟩] := by decide

/-- Claim C2, counterexample: the all-ones Input Stream of length 20 is
shorter than `2*sps + lookahead_margin = 32` samples (at `sps = 8`), yet the
loop completes one iteration and returns a nonempty Output Sequence. -/
theorem short_stream_output_nonempty_cex :
    (onesStream 20).length < 2 * 8 + 16 ∧
    clockRecovery 8 (3/10) (onesStream 20) = some [⟨1, 0⟩] ∧
    ((⟨1, 0⟩ : Cx) :: []) ≠ ([] : List Cx) := by decide

/-- Claim C2, amended: for every Input Stream of length at most the
lookahead margin 16, the guard fails before the first iteration, so the run
ends immediately in the initial state, the Output Sequence is empty, and no
read of the Input Stream occurs at all. -/
theorem stream_le_margin_empty_output (sps gain : ℚ) (samples : List Cx)
    (h : samples.length ≤ 16) :
    mmRun sps gain samples mmInit = some mmInit ∧
    clockRecovery sps gain samples = some [] := by
  have hng : ¬ mmGuard samples.length mmInit := by
    intro hg
    have h2 := hg.2
    have : mmInit.i_in = 0 := rfl
    rw [this] at h2
    omega
  have h1 : mmRun sps gain samples mmInit = some mmInit :=
    mmRunAux_stop hng samples.length
  refine ⟨h1, ?_⟩
  rw [clockRecovery, h1]
  rfl

/-- Claim C2 witness: a 10-sample stream yields the empty Output Sequence. -/
theorem stream_le_margin_empty_output_witness :
    mmRun 8 (3/10) (onesStream 10) mmInit = some mmInit ∧
    clockRecovery 8 (3/10) (onesStream 10) = some [] :=
  stream_le_margin_empty_output 8 (3/10) (onesStream 10) (by decide)

/-- Claim C3: for every Input Stream, configuration and iteration,
immediately after the iteration's index/fraction split the fractional
accumulator `mu` lies in the half-open interval `[0, 1)`. -/
theorem mu_in_Ico_after_each_iteration (sps gain : ℚ) (samples : List Cx)
    (n : ℕ) (st : MMState) (h : mmIter sps gain samples (n + 1) = some st) :
    0 ≤ st.mu ∧ st.mu < 1 :=
  mmIter_mu_bounds h

/-- Claim C3 witness: after the first iteration on a concrete stream. -/
theorem mu_in_Ico_after_each_iteration_witness :
    0 ≤ onesSt1.mu ∧ onesSt1.mu < 1 :=
  mu_in_Ico_after_each_iteration 8 (3/10) (onesStream 20) 0 onesSt1 (by decide)

/-- Claim C4, counterexample: on the adversarial stream `advStream`
(`samples[0] = 100`, `samples[8] = -100`), `i_in` is 8 after the first
iteration and -14 after the second: the cursor moves backwards, so
`input_index` is not non-decreasing for arbitrary complex sample values. -/
theorem input_index_decreases_cex :
    (mmIter 8 (3/10) advStream 1).map MMState.i_in = some 8 ∧
    (mmIter 8 (3/10) advStream 2).map MMState.i_in = some (-14) ∧
    ((-14 : ℤ) < 8) := by decide

/-- Claim C4, amended: `i_in` advances by `⌊mu + sps + gain*mm_val⌋` each
iteration, and since `mu ≥ 0` this advance is nonnegative — so `input_index`
is non-decreasing — whenever the iteration's update satisfies
`sps + gain*mm_val ≥ 0`; a sufficiently negative error term (possible for
adversarial sample values) moves the cursor backwards. -/
theorem input_index_monotone_of_nonneg_update (sps gain : ℚ) (samples : List Cx)
    (n : ℕ) (st st' : MMState) (e : ℚ)
    (hn : mmIter sps gain samples n = some st)
    (hn1 : mmIter sps gain samples (n + 1) = some st')
    (he : mmErr samples st = some e)
    (hpos : 0 ≤ sps + gain * e) :
    st.i_in ≤ st'.i_in := by
  obtain ⟨st0, hn0, hg, hstep⟩ := mmIter_succ_elim hn1
  rw [hn0] at hn
  cases hn
  obtain ⟨z, hrun⟩ := mmStep_run_of_err sps gain he
  rw [hrun] at hstep
  cases hstep
  have hmu : 0 ≤ st.mu := (mmIter_mu_bounds hn0).1
  have hfl : 0 ≤ ⌊st.mu + sps + gain * e⌋ :=
    Int.floor_nonneg.mpr (by linarith)
  simp only
  omega

/-- Claim C4 witness: first iteration on the all-ones stream, where the
error value is 0 and the update is `8 + 0.3*0 ≥ 0`. -/
theorem input_index_monotone_of_nonneg_update_witness :
    mmInit.i_in ≤ onesSt1.i_in :=
  input_index_monotone_of_nonneg_update 8 (3/10) (onesStream 20) 0 mmInit onesSt1 0
    (by decide) (by decide) (by decide) (by decide)

/-- Claim C5, counterexample: on `crashStream` (`samples[0] = 100`,
`samples[8] = -200`, length 25), after two iterations the guard still holds
(`i_out = 4 < 25` and `i_in + 16 = -28 < 25`), so a third iteration executes
and reads at index `i_in + int(mu) = -44`, which is negative — not an
in-bounds index — and outside even Python's wrap-around range, so the read
raises `IndexError`. -/
theorem read_out_of_bounds_cex :
    mmIter 8 (3/10) crashStream 2 = some crashSt2 ∧
    mmGuard crashStream.length crashSt2 ∧
    crashSt2.i_in + pyTrunc crashSt2.mu < 0 ∧
    pyGet crashStream (crashSt2.i_in + pyTrunc crashSt2.mu) = none := by decide

/-- Claim C5, amended: whenever an iteration executes (the guard holds), the
read index `i_in + int(mu)` equals `i_in` (since `mu ∈ [0, 1)`) and is
strictly below `L - 16`; the lower bound `0 ≤ i_in` can however fail for
adversarial inputs, so the read is not always in-bounds. -/
theorem read_index_below_margin (sps gain : ℚ) (samples : List Cx)
    (n : ℕ) (st : MMState)
    (h : mmIter sps gain samples n = some st)
    (hg : mmGuard samples.length st) :
    st.i_in + pyTrunc st.mu = st.i_in ∧
    st.i_in + pyTrunc st.mu < (samples.length : ℤ) - 16 := by
  obtain ⟨h0, h1⟩ := mmIter_mu_bounds h
  have ht : pyTrunc st.mu = 0 := pyTrunc_eq_zero h0 h1
  rw [ht, add_zero]
  have h2 := hg.2
  omega

/-- Claim C5 witness: the very first read of a 20-sample stream. -/
theorem read_index_below_margin_witness :
    mmInit.i_in + pyTrunc mmInit.mu = mmInit.i_in ∧
    mmInit.i_in + pyTrunc mmInit.mu < ((onesStream 20).length : ℤ) - 16 :=
  read_index_below_margin 8 (3/10) (onesStream 20) 0 mmInit (by decide) (by decide)

/-- Claim C6, counterexample: for the sample `0 + 5j`, whose real part is
exactly zero, the slicer `int(np.real(z) > 0)` assigns the real component
the level 0 — the same level as strictly negative values — not the positive
level 1: the convention is boundary-exclusive, not boundary-inclusive. -/
theorem slicer_zero_maps_low_cex :
    (⟨0, 5⟩ : Cx).re = 0 ∧ rail ⟨0, 5⟩ = ⟨0, 1⟩ ∧ (rail (⟨0, 5⟩ : Cx)).re ≠ 1 := by decide

/-- Claim C6, amended: the slicer maps a strictly positive component to the
level 1 and a non-positive component (zero included) to the level 0, on each
axis independently: zero ties break to the lower level. -/
theorem slicer_strict_positive (z : Cx) :
    ((z.re ≤ 0 → (rail z).re = 0) ∧ (0 < z.re → (rail z).re = 1)) ∧
    ((z.im ≤ 0 → (rail z).im = 0) ∧ (0 < z.im → (rail z).im = 1)) := by
  unfold rail
  refine ⟨⟨fun h => ?_, fun h => ?_⟩, ⟨fun h => ?_, fun h => ?_⟩⟩
  · simp only
    rw [if_neg (not_lt.mpr h)]
  · simp only
    rw [if_pos h]
  · simp only
    rw [if_neg (not_lt.mpr h)]
  · simp only
    rw [if_pos h]

/-- Claim C6 witness: the slicer at `0 + 5j`. -/
theorem slicer_strict_positive_witness :
    (rail ⟨0, 5⟩).re = 0 ∧ (rail ⟨0, 5⟩).im = 1 :=
  ⟨(slicer_strict_positive ⟨0, 5⟩).1.1 (by decide),
   (slicer_strict_positive ⟨0, 5⟩).2.2 (by decide)⟩

/-- Claim C7, counterexample: with `sps = 0 < 1` the loop performs no input
validation and does not fail before iterating: on a 20-sample stream it runs
to completion and produces a nonempty Output Sequence. -/
theorem no_validation_cex :
    (0 : ℚ) < 1 ∧
    clockRecovery 0 (3/10) (onesStream 20) ≠ none ∧
    clockRecovery 0 (3/10) (onesStream 20) ≠ some [] := by decide

/-- Claim C7, amended: the code contains no configuration validation; with
`sps = 0` (which is `< 1`) on the all-ones 20-sample stream the loop simply
re-reads `samples[0]` every iteration until `i_out` reaches the stream
length, emitting 18 output samples. -/
theorem no_validation_runs_anyway :
    clockRecovery 0 (3/10) (onesStream 20) = some (List.replicate 18 ⟨1, 0⟩) := by decide

/-- Claim C8: the recovery loop is a deterministic function — two runs on
equal Input Streams, equal `sps`, equal `gain` and equal initial state
produce identical results, and likewise for the visible Output Sequence. -/
theorem recovery_deterministic (sps₁ sps₂ gain₁ gain₂ : ℚ)
    (samples₁ samples₂ : List Cx) (st₁ st₂ : MMState)
    (hs : sps₁ = sps₂) (hg : gain₁ = gain₂)
    (hsam : samples₁ = samples₂) (hst : st₁ = st₂) :
    mmRun sps₁ gain₁ samples₁ st₁ = mmRun sps₂ gain₂ samples₂ st₂ ∧
    clockRecovery sps₁ gain₁ samples₁ = clockRecovery sps₂ gain₂ samples₂ := by
  subst hs hg hsam hst
  exact ⟨rfl, rfl⟩

/-- Claim C8 witness: two runs on the same concrete input coincide. -/
theorem recovery_deterministic_witness :
    mmRun 8 (3/10) (onesStream 20) mmInit = mmRun 8 (3/10) (onesStream 20) mmInit ∧
    clockRecovery 8 (3/10) (onesStream 20) = clockRecovery 8 (3/10) (onesStream 20) :=
  recovery_deterministic 8 8 (3/10) (3/10) (onesStream 20) (onesStream 20)
    mmInit mmInit rfl rfl rfl rfl

/-- Claim C9, counterexample: on `crashStream` the run produces no final
state at all — it aborts with an `IndexError` during the third iteration —
even though after two completed iterations both guard conditions still hold,
so the loop does not halt exactly when `i_out ≥ L` or `i_in + 16 ≥ L`. -/
theorem loop_abort_cex :
    mmRun 8 (3/10) crashStream mmInit = none ∧
    (mmIter 8 (3/10) crashStream 2).map
      (fun st => decide (mmGuard crashStream.length st)) = some true := by decide

/-- Claim C9, amended: the loop always terminates — the number of completed
iterations never exceeds the stream length — and every run that completes
without an indexing error halts in a state where `i_out ≥ L` or
`i_in + 16 ≥ L`, i.e. exactly when the `while` guard first fails. -/
theorem termination_bound_and_guard (sps gain : ℚ) (samples : List Cx) :
    (∀ n st, mmIter sps gain samples n = some st → n ≤ samples.length) ∧
    (∀ st, mmRun sps gain samples mmInit = some st →
      samples.length ≤ st.i_out ∨ (samples.length : ℤ) ≤ st.i_in + 16) := by
  constructor
  · intro n st h
    cases n with
    | zero => exact Nat.zero_le _
    | succ m =>
      obtain ⟨st0, hprev, hgd, _⟩ := mmIter_succ_elim h
      have hio := mmIter_i_out hprev
      have h1 := hgd.1
      omega
  · intro st h
    have hng := mmRunAux_final_not_guard samples.length mmInit st (by
      have : mmInit.i_out = 2 := rfl
      omega) h
    rw [not_and_or, not_lt, not_lt] at hng
    exact hng

/-- Claim C9 witness: on the all-ones 20-sample stream, one completed
iteration is within the length bound and the final state (reached after
that single iteration) violates the guard through its second condition. -/
theorem termination_bound_and_guard_witness :
    (1 ≤ (onesStream 20).length) ∧
    ((onesStream 20).length ≤ onesSt1.i_out ∨
      ((onesStream 20).length : ℤ) ≤ onesSt1.i_in + 16) :=
  ⟨(termination_bound_and_guard 8 (3/10) (onesStream 20)).1 1 onesSt1 (by decide),
   (termination_bound_and_guard 8 (3/10) (onesStream 20)).2 onesSt1 (by decide)⟩

/-- Claim C10: at the moment of sample selection (the top of every
iteration) `mu` lies in `[0, 1)`, so the truncation `int(mu)` is 0 and the
sample read is exactly the Input Stream element at `input_index`. -/
theorem sample_read_at_input_index (sps gain : ℚ) (samples : List Cx)
    (n : ℕ) (st : MMState) (h : mmIter sps gain samples n = some st) :
    (0 ≤ st.mu ∧ st.mu < 1) ∧ pyTrunc st.mu = 0 ∧
    pyGet samples (st.i_in + pyTrunc st.mu) = pyGet samples st.i_in := by
  obtain ⟨h0, h1⟩ := mmIter_mu_bounds h
  have ht : pyTrunc st.mu = 0 := pyTrunc_eq_zero h0 h1
  exact ⟨⟨h0, h1⟩, ht, by rw [ht, add_zero]⟩

/-- Claim C10 witness: the state after one iteration on a concrete stream. -/
theorem sample_read_at_input_index_witness :
    (0 ≤ onesSt1.mu ∧ onesSt1.mu < 1) ∧ pyTrunc onesSt1.mu = 0 ∧
    pyGet (onesStream 20) (onesSt1.i_in + pyTrunc onesSt1.mu) =
      pyGet (onesStream 20) onesSt1.i_in :=
  sample_read_at_input_index 8 (3/10) (onesStream 20) 1 onesSt1 (by decide)

end PySDR
